import Mathlib

/-!
Verification of the screenshots-housekeeping repository: a shallow embedding
of `file_manager.py` (filename recognition, grouping, sanitization, conflict
resolution, group rename) and `vision_analyzer.py` (response parsing, safety
refusal detection, retry loop), with theorems settling the frozen claims.

Strings are modelled as Lean `String` / `List Char`; Python regular
expressions are translated to deterministic matchers (justified branch by
branch: the patterns involved have no ambiguous backtracking because every
bounded digit class is followed by a non-digit literal).
-/

namespace Screenshots

/-! ## Generic character/string helpers (Python semantics) -/

/-- Python's `\s` / `str.strip()` whitespace set (ASCII part). -/
def isSpaceChar (c : Char) : Bool :=
  c = ' ' || c = '\t' || c = '\n' || c = '\x0b' || c = '\x0c' || c = '\r'

/-- Python `str.strip(chars)`: drop characters satisfying `p` from both ends. -/
def stripBoth (p : Char → Bool) (cs : List Char) : List Char :=
  ((cs.dropWhile p).reverse.dropWhile p).reverse

/-- State-machine core of `re.sub(r'\s+', ' ', s)`: the flag records whether
the previous character was whitespace (run already emitted). -/
def collapseWsAux : Bool → List Char → List Char
  | _, [] => []
  | prev, c :: cs =>
    if isSpaceChar c then
      if prev then collapseWsAux true cs else ' ' :: collapseWsAux true cs
    else c :: collapseWsAux false cs

/-- `re.sub(r'\s+', ' ', s)`: collapse every whitespace run to one space. -/
def collapseWs (cs : List Char) : List Char := collapseWsAux false cs

/-- Accumulator core of Python `str.split()` (split on whitespace runs,
dropping empty pieces); `cur` holds the current word reversed. -/
def splitWsAux : List Char → List Char → List (List Char)
  | cur, [] => if cur.isEmpty then [] else [cur.reverse]
  | cur, c :: cs =>
    if isSpaceChar c then
      if cur.isEmpty then splitWsAux [] cs else cur.reverse :: splitWsAux [] cs
    else splitWsAux (c :: cur) cs

/-- Python `str.split()` with no argument. -/
def splitWs (cs : List Char) : List (List Char) := splitWsAux [] cs

/-- Python `' '.join(words)`. -/
def joinSp : List (List Char) → List Char
  | [] => []
  | [w] => w
  | w :: ws => w ++ ' ' :: joinSp ws

/-- Python `sep.join(items)` for strings. -/
def joinStr (sep : String) : List String → String
  | [] => ""
  | [x] => x
  | x :: xs => x ++ sep ++ joinStr sep xs

/-- Is `pre` a prefix of `l` (Python `str.startswith`). -/
def isPrefixL : List Char → List Char → Bool
  | [], _ => true
  | _ :: _, [] => false
  | a :: as, b :: bs => a = b && isPrefixL as bs

/-- Python `needle in hay` substring containment. -/
def containsSub (needle : List Char) : List Char → Bool
  | [] => isPrefixL needle []
  | c :: cs => isPrefixL needle (c :: cs) || containsSub needle cs

/-- Numeric value of a list of decimal digit characters (Python `int(s)`). -/
def digitsVal (cs : List Char) : Nat :=
  cs.foldl (fun a c => a * 10 + (c.toNat - 48)) 0

/-- Fueled decimal rendering of a natural number (fuel `n+1` always
suffices); structural so that concrete instances compute by `rfl`. -/
def natDigitsGo : Nat → Nat → List Char → List Char
  | 0, _, acc => acc
  | fuel + 1, n, acc =>
    if n < 10 then Nat.digitChar n :: acc
    else natDigitsGo fuel (n / 10) (Nat.digitChar (n % 10) :: acc)

/-- Python `str(n)` for a natural number. -/
def natToStr (n : Nat) : String := String.mk (natDigitsGo (n + 1) n [])

/-- `[start, start+1, ..., start+len-1]`. -/
def countUp : Nat → Nat → List Nat
  | _, 0 => []
  | start, len + 1 => start :: countUp (start + 1) len

/-! ## FileManager: filename recognition (`file_manager.py`)

The four compiled patterns of `FileManager.__init__`:
  modern plain      `^Screenshot (\d{4}-\d{2}-\d{2} at \d{1,2}\.\d{1,2}\.\d{2})\.png$`
  modern numbered   `^Screenshot (...) \((\d+)\)\.png$`
  legacy plain      `^Screen Shot (...)\.png$`
  legacy numbered   `^Screen Shot (...) \((\d+)\)\.png$`
Each bounded digit class is followed by a non-digit literal, so the regex is
equivalent to the deterministic greedy matcher below. -/

/-- Match a literal character sequence, returning the remainder. -/
def expectLit : List Char → List Char → Option (List Char)
  | [], cs => some cs
  | _ :: _, [] => none
  | l :: ls, c :: cs => if c = l then expectLit ls cs else none

/-- `\d{n}`: exactly `n` decimal digits. -/
def exactDigits : Nat → List Char → Option (List Char × List Char)
  | 0, cs => some ([], cs)
  | _ + 1, [] => none
  | n + 1, c :: cs =>
    if c.isDigit then (exactDigits n cs).map (fun p => (c :: p.1, p.2)) else none

/-- `\d{1,2}` (greedy; the caller's following literal is a non-digit, so
greediness is faithful to the regex). -/
def upTo2Digits : List Char → Option (List Char × List Char)
  | [] => none
  | [c] => if c.isDigit then some ([c], []) else none
  | c1 :: c2 :: rest =>
    if c1.isDigit then
      if c2.isDigit then some ([c1, c2], rest) else some ([c1], c2 :: rest)
    else none

/-- Python `re` end anchor `$`: end of string, or just before a final newline. -/
def atEnd (cs : List Char) : Bool := cs = [] || cs = ['\n']

/-- The capture group `(\d{4}-\d{2}-\d{2} at \d{1,2}\.\d{1,2}\.\d{2})`:
returns the captured characters and the remainder. -/
def tsCore (cs : List Char) : Option (List Char × List Char) := do
  let (y, r) ← exactDigits 4 cs
  let r ← expectLit ['-'] r
  let (mo, r) ← exactDigits 2 r
  let r ← expectLit ['-'] r
  let (dy, r) ← exactDigits 2 r
  let r ← expectLit [' ', 'a', 't', ' '] r
  let (h, r) ← upTo2Digits r
  let r ← expectLit ['.'] r
  let (mi, r) ← upTo2Digits r
  let r ← expectLit ['.'] r
  let (s, r) ← exactDigits 2 r
  pure (y ++ '-' :: (mo ++ '-' :: (dy ++ ' ' :: 'a' :: 't' :: ' ' ::
    (h ++ '.' :: (mi ++ '.' :: s)))), r)

/-- `"Screenshot "` (modern pattern literal, including the space). -/
def modernLit : List Char := "Screenshot ".data

/-- `"Screen Shot "` (legacy pattern literal, including the space). -/
def legacyLit : List Char := "Screen Shot ".data

/-- Match a plain (non-numbered) pattern; returns the timestamp group. -/
def matchPlain (pfxLit : List Char) (name : List Char) : Option String := do
  let r ← expectLit pfxLit name
  let (ts, r) ← tsCore r
  let r ← expectLit ['.', 'p', 'n', 'g'] r
  if atEnd r then pure (String.mk ts) else none

/-- Match a numbered pattern (` \((\d+)\)\.png$` suffix); returns the
timestamp group and the parenthesized sequence number. -/
def matchNumbered (pfxLit : List Char) (name : List Char) :
    Option (String × Nat) := do
  let r ← expectLit pfxLit name
  let (ts, r) ← tsCore r
  let r ← expectLit [' ', '('] r
  let ds := r.takeWhile Char.isDigit
  let r2 := r.dropWhile Char.isDigit
  if ds.isEmpty then none
  else do
    let r3 ← expectLit [')', '.', 'p', 'n', 'g'] r2
    if atEnd r3 then pure (String.mk ts, digitsVal ds) else none

/-- `ScreenshotFile` named tuple of `file_manager.py`. -/
structure ScreenshotFile where
  path : String
  original_name : String
  timestamp_part : String
  number_suffix : Option Nat
deriving Repr, DecidableEq

/-- `FileManager._parse_screenshot_filename`: try modern numbered, legacy
numbered, modern plain, legacy plain, in that order. -/
def parse_screenshot_filename (path name : String) : Option ScreenshotFile :=
  match matchNumbered modernLit name.data with
  | some (ts, n) => some ⟨path, name, ts, some n⟩
  | none =>
    match matchNumbered legacyLit name.data with
    | some (ts, n) => some ⟨path, name, ts, some n⟩
    | none =>
      match matchPlain modernLit name.data with
      | some ts => some ⟨path, name, ts, none⟩
      | none =>
        match matchPlain legacyLit name.data with
        | some ts => some ⟨path, name, ts, none⟩
        | none => none

/-! ## FileManager: grouping, sanitization, rename, conflict resolution -/

/-- Sort key of `group_screenshots_by_timestamp`:
`s.number_suffix or 0` (a missing suffix sorts as `0`). -/
def sortKey (s : ScreenshotFile) : Nat := s.number_suffix.getD 0

/-- Stable insertion step (inserts before the first strictly larger key, after
equal keys already present). -/
def insertByKey (s : ScreenshotFile) : List ScreenshotFile → List ScreenshotFile
  | [] => [s]
  | t :: ts => if sortKey s ≤ sortKey t then s :: t :: ts else t :: insertByKey s ts

/-- Stable insertion sort by `sortKey`; Python's `sorted` is a stable sort by
the same key, and a stable sort by a given key is unique, so this is faithful. -/
def sortByKey : List ScreenshotFile → List ScreenshotFile
  | [] => []
  | s :: ss => insertByKey s (sortByKey ss)

/-- `FileManager.group_screenshots_by_timestamp`, projected at one timestamp
key: the `defaultdict` accumulates matching records in scan order, then the
group is stably sorted by `number_suffix or 0`. -/
def group_screenshots_by_timestamp (screenshots : List ScreenshotFile)
    (ts : String) : List ScreenshotFile :=
  sortByKey (screenshots.filter (fun s => s.timestamp_part == ts))

/-- The `invalid_chars = '<>:"/\\|?*.'` string of `_sanitize_filename`. -/
def invalid_chars : List Char := ['<', '>', ':', '"', '/', '\\', '|', '?', '*', '.']

/-- The sequential `description.replace(char, '')` loop of `_sanitize_filename`. -/
def remove_invalid (cs : List Char) : List Char :=
  invalid_chars.foldl (fun d c => d.filter (fun x => x != c)) cs

/-- Python `str.capitalize()`: first character uppercased, all following
characters lowercased. -/
def pyCapitalize : List Char → List Char
  | [] => []
  | c :: cs => c.toUpper :: cs.map Char.toLower

/-- Python `s.rsplit(' ', 1)[0]`: everything before the last space, or the
whole string when it has no space. -/
def dropAfterLastSpace (cs : List Char) : List Char :=
  match cs.reverse.dropWhile (fun c => c != ' ') with
  | [] => cs
  | _ :: rest => rest.reverse

/-- `_sanitize_filename` up to (and including) `strip()`: remove invalid
characters, collapse whitespace runs, trim. -/
def sanitize_core (d : String) : List Char :=
  stripBoth isSpaceChar (collapseWs (remove_invalid d.data))

/-- `FileManager._sanitize_filename`. -/
def sanitize_filename (d : String) : String :=
  let cs := pyCapitalize (sanitize_core d)
  String.mk (if 50 < cs.length then dropAfterLastSpace (cs.take 50) else cs)

/-- `FileManager._is_legacy_format`: `filename.startswith("Screen Shot")`. -/
def is_legacy_format (filename : String) : Bool :=
  isPrefixL "Screen Shot".data filename.data

/-- The new-name template computed inside `rename_screenshot_group` for one
record (before conflict resolution):
`<prefix> <timestamp> - <sanitized description>[ (<n>)].png`. -/
def rename_new_name (s : ScreenshotFile) (description : String) : String :=
  let clean := sanitize_filename description
  let pfx := if is_legacy_format s.original_name then "Screen Shot" else "Screenshot"
  let base := pfx ++ " " ++ s.timestamp_part ++ " - " ++ clean
  match s.number_suffix with
  | some n => base ++ " (" ++ natToStr n ++ ").png"
  | none => base ++ ".png"

/-- `pathlib.PurePath` stem/suffix split: the suffix is nonempty exactly when
the last dot sits strictly inside the name (`0 < i < len - 1`). -/
def path_split (name : String) : String × String :=
  let cs := name.data
  match cs.reverse.findIdx? (fun c => c == '.') with
  | some j =>
    let i := cs.length - 1 - j
    if 0 < i ∧ i < cs.length - 1 then (String.mk (cs.take i), String.mk (cs.drop i))
    else (name, "")
  | none => (name, "")

/-- The candidate name `f"{base} ({counter}){suffix}"` of `_resolve_conflicts`. -/
def conflictNm (stem ext : String) (k : Nat) : String :=
  stem ++ " (" ++ natToStr k ++ ")" ++ ext

/-- The `while True` probe loop of `_resolve_conflicts`, fueled; the fuel
`existing.length + 1` provably never runs out (see `probe_adequate`). -/
def probe (existing : List String) (stem ext : String) : Nat → Nat → String
  | 0, k => conflictNm stem ext k
  | fuel + 1, k =>
    let nm := conflictNm stem ext k
    if existing.contains nm then probe existing stem ext fuel (k + 1) else nm

/-- `FileManager._resolve_conflicts` over a directory state `existing`
(the set of names for which `Path.exists()` is true). -/
def resolve_conflicts (existing : List String) (target : String) : String :=
  if existing.contains target then
    let p := path_split target
    probe existing p.1 p.2 (existing.length + 1) 1
  else target

/-- `FileManager.rename_screenshot_group` over a directory state: for each
record compute the template name, resolve conflicts against the current
directory, and perform the rename (the old name disappears, the new one
appears). Returns the final names in group order. -/
def rename_screenshot_group (existing : List String)
    (group : List ScreenshotFile) (description : String) : List String :=
  match group with
  | [] => []
  | s :: rest =>
    let finalName := resolve_conflicts existing (rename_new_name s description)
    finalName ::
      rename_screenshot_group ((existing.erase s.original_name) ++ [finalName])
        rest description

/-! ## VisionAnalyzer: response parsing (`vision_analyzer.py`) -/

/-- JSON-like values as returned by `response.json()`. -/
inductive Json where
  | null
  | str (s : String)
  | num (n : Int)
  | arr (xs : List Json)
  | obj (fields : List (String × Json))

/-- Python dict key lookup (keys are unique in a parsed JSON object). -/
def jlookup (k : String) : List (String × Json) → Option Json
  | [] => none
  | (k', v) :: rest => if k' == k then some v else jlookup k rest

/-- Python truthiness (`if response:`) of a JSON value. -/
def jsonTruthy : Json → Bool
  | .null => false
  | .str s => !s.isEmpty
  | .num n => n != 0
  | .arr xs => !xs.isEmpty
  | .obj fs => !fs.isEmpty

/-- Python `str(content)` for a non-string JSON value (the exact rendering is
irrelevant to every claim: it only flows into the generic text pipeline). -/
def jsonToStr : Json → String
  | .null => "None"
  | .str s => s
  | .num n => toString n
  | .arr _ => "[...]"
  | .obj _ => "{...}"

/-- The `refusal_patterns` list of `_parse_description`. -/
def refusal_patterns : List String :=
  ["i\x27m sorry, i can\x27t help",
   "i can\x27t help with that",
   "i\x27m not able to help",
   "i cannot help",
   "i\x27m sorry, but i can\x27t",
   "i can\x27t assist with",
   "i\x27m unable to help",
   "i cannot assist",
   "i\x27m sorry, i cannot",
   "i can\x27t provide",
   "i\x27m not able to provide",
   "i cannot provide",
   "i can\x27t analyze",
   "i cannot analyze",
   "i\x27m not able to analyze",
   "i\x27m sorry, i can\x27t analyze"]

/-- The `prefixes_to_remove` list of `_parse_description`. -/
def prefixes_to_remove : List String :=
  ["This screenshot shows",
   "The screenshot shows",
   "This image shows",
   "The image shows",
   "Screenshot of",
   "Image of"]

/-- `content.strip().strip('"').strip("'")`. -/
def cleanContent (s : String) : List Char :=
  stripBoth (fun c => c = '\x27')
    (stripBoth (fun c => c = '"') (stripBoth isSpaceChar s.data))

/-- One step of the boilerplate-removal loop:
`if description.lower().startswith(prefix.lower()): description = description[len(prefix):].strip()`. -/
def removeLeadingPhrase (d : List Char) (p : String) : List Char :=
  if isPrefixL (p.data.map Char.toLower) (d.map Char.toLower) then
    stripBoth isSpaceChar (d.drop p.length)
  else d

/-- The boilerplate-removal loop of `_parse_description`. -/
def afterPhrases (d0 : List Char) : List Char :=
  prefixes_to_remove.foldl removeLeadingPhrase d0

/-- The word cap of `_parse_description`:
`words = description.split(); if len(words) > 6: description = ' '.join(words[:5])`. -/
def capWords (d1 : List Char) : List Char :=
  if 6 < (splitWs d1).length then joinSp ((splitWs d1).take 5) else d1

/-- The text portion of `_parse_description` (applied once a textual content
string is in hand): emptiness check, safety-refusal check (`none` = refusal),
boilerplate removal, word cap, minimum-length check. -/
def parse_text (s : String) : Option String :=
  let d0 := cleanContent s
  if d0.isEmpty || d0.all isSpaceChar then some "Screenshot content"
  else if refusal_patterns.any
      (fun p => containsSub p.data (d0.map Char.toLower)) then none
  else
    let d2 := capWords (afterPhrases d0)
    if (stripBoth isSpaceChar d2).length < 2 then some "Screenshot content"
    else some (String.mk d2)

/-- `VisionAnalyzer._parse_description`: structural validation of the
response, with every malformed shape degrading to the fixed placeholder
(`"Screenshot content"`); `none` encodes the safety-refusal `None`.
Non-`dict`/`list` shapes where Python would raise `TypeError`/`KeyError` land
in the same placeholder through the `except` clauses at the end of the
Python function. -/
def parse_description (response : Json) : Option String :=
  match response with
  | .obj fields =>
    match jlookup "choices" fields with
    | none => some "Screenshot content"
    | some choices =>
      match choices with
      | .arr [] => some "Screenshot content"
      | .arr (choice :: _) =>
        match choice with
        | .obj cfields =>
          match jlookup "message" cfields with
          | none => some "Screenshot content"
          | some message =>
            match message with
            | .obj mfields =>
              match jlookup "content" mfields with
              | none => some "Screenshot content"
              | some .null => some "Screenshot content"
              | some (.str s) => parse_text s
              | some other => parse_text (jsonToStr other)
            | _ => some "Screenshot content"
        | _ => some "Screenshot content"
      | _ => some "Screenshot content"
  | _ => some "Screenshot content"

/-- Structural-failure predicate for an HTTP-200 payload: exactly the shapes
that `_parse_description` rejects before reaching a usable text (plus a
content string that cleans to empty/whitespace). -/
def malformed200 (j : Json) : Bool :=
  match j with
  | .obj fields =>
    match jlookup "choices" fields with
    | none => true
    | some (.arr []) => true
    | some (.arr (choice :: _)) =>
      match choice with
      | .obj cfields =>
        match jlookup "message" cfields with
        | none => true
        | some (.obj mfields) =>
          match jlookup "content" mfields with
          | none => true
          | some .null => true
          | some (.str s) =>
            (cleanContent s).isEmpty || (cleanContent s).all isSpaceChar
          | some _ => false
        | some _ => true
      | _ => true
    | some _ => true
  | _ => true

/-! ## VisionAnalyzer: the retry loop of `analyze_screenshot` -/

/-- What one loop iteration observes from the transport/image layer:
image preparation failure, one of the three caught exception classes
(each carrying `str(e)`), or a parsed JSON response body. -/
inductive Attempt where
  | prepFail
  | timeoutExn
  | reqExn (msg : String)
  | otherExn (msg : String)
  | response (j : Json)

/-- `AnalysisResult` dataclass of `vision_analyzer.py` (field defaults
included). -/
structure AnalysisResult where
  success : Bool
  description : Option String := none
  error_message : Option String := none
  error_details : Option String := none
  retry_count : Nat := 0
deriving Repr, DecidableEq

/-- The error string appended to `self.last_errors` for a failing attempt at
`retry_count = rc` (`attempt {rc + 1}` in the message); the timeout message
interpolates `self.api_config.timeout`, kept abstract as `timeoutStr`. -/
def attemptErrMsg (timeoutStr : String) (rc : Nat) : Attempt → String
  | .timeoutExn =>
      "API timeout after " ++ timeoutStr ++ "s (attempt " ++ natToStr (rc + 1) ++ ")"
  | .reqExn m =>
      "API request failed: " ++ m ++ " (attempt " ++ natToStr (rc + 1) ++ ")"
  | .otherExn m =>
      "Unexpected error: " ++ m ++ " (attempt " ++ natToStr (rc + 1) ++ ")"
  | _ => ""

/-- The result built after the `while` loop exhausts all attempts. -/
def exhaustedResult (rc : Nat) (last_errors : List String) : AnalysisResult :=
  { success := false,
    error_message := some ("Failed after " ++ natToStr rc ++ " attempts"),
    error_details := some ("All attempts failed. Details: " ++
      (if last_errors.isEmpty then "No specific error details captured"
       else joinStr "; " last_errors)),
    retry_count := rc }

/-- The early return for an image-preparation failure (note: it does not pass
`retry_count`, so the dataclass default `0` applies). -/
def prepFailResult : AnalysisResult :=
  { success := false,
    error_message := some "Failed to process image file",
    error_details := some ("Could not read, convert, or encode the image file. " ++
      "Check if the file is corrupted or in an unsupported format.") }

/-- The early return when `_parse_description` signals a safety refusal. -/
def refusalResult (rc : Nat) : AnalysisResult :=
  { success := false,
    error_message := some "AI safety filter refused to analyze image",
    error_details := some ("The AI model's safety filters prevented analysis " ++
      "of this image. This typically happens with screenshots containing " ++
      "sensitive, personal, or inappropriate content."),
    retry_count := rc }

/-- The `while retry_count <= max_retries` loop of `analyze_screenshot`,
fueled by the number of remaining iterations (invariant:
`fuel = max_retries + 1 - rc`). A falsy response body falls through the
`if response:` guard: the loop retries without recording an error. -/
def analyze_go (attempts : Nat → Attempt) (timeoutStr : String) :
    Nat → Nat → List String → AnalysisResult
  | 0, rc, errs => exhaustedResult rc errs
  | fuel + 1, rc, errs =>
    match attempts rc with
    | .prepFail => prepFailResult
    | .response j =>
      if jsonTruthy j then
        match parse_description j with
        | none => refusalResult rc
        | some d => { success := true, description := some d, retry_count := rc }
      else analyze_go attempts timeoutStr fuel (rc + 1) errs
    | .timeoutExn =>
      analyze_go attempts timeoutStr fuel (rc + 1)
        (errs ++ [attemptErrMsg timeoutStr rc .timeoutExn])
    | .reqExn m =>
      analyze_go attempts timeoutStr fuel (rc + 1)
        (errs ++ [attemptErrMsg timeoutStr rc (.reqExn m)])
    | .otherExn m =>
      analyze_go attempts timeoutStr fuel (rc + 1)
        (errs ++ [attemptErrMsg timeoutStr rc (.otherExn m)])

/-- `VisionAnalyzer.analyze_screenshot`: run the loop from `retry_count = 0`
with a fresh `last_errors`; the transport behaviour of attempt `n` is
`attempts n`. -/
def analyze_screenshot (attempts : Nat → Attempt) (timeoutStr : String)
    (max_retries : Nat) : AnalysisResult :=
  analyze_go attempts timeoutStr (max_retries + 1) 0 []

/-- Is this attempt outcome one of the three caught exception classes? -/
def isErrAttempt : Attempt → Bool
  | .timeoutExn => true
  | .reqExn _ => true
  | .otherExn _ => true
  | _ => false

/-- A well-formed chat response whose first choice carries the text `s`. -/
def chatResponse (s : String) : Json :=
  Json.obj [("choices", Json.arr [Json.obj [("message",
    Json.obj [("content", Json.str s)])]])]

/-- The timestamp character sequence
`<y>-<mo>-<dy> at <h>.<mi>.<s>` assembled from its digit components. -/
def tsChars (y mo dy h mi s : List Char) : List Char :=
  y ++ '-' :: (mo ++ '-' :: (dy ++ ' ' :: 'a' :: 't' :: ' ' ::
    (h ++ '.' :: (mi ++ '.' :: s))))

/-- Well-formedness of timestamp components per the (amended) grammar:
4-digit year, 2-digit month/day, 1-or-2-digit hour and minute, 2-digit
second. -/
def validTs (y mo dy h mi s : List Char) : Prop :=
  y.all Char.isDigit = true ∧ y.length = 4 ∧
  mo.all Char.isDigit = true ∧ mo.length = 2 ∧
  dy.all Char.isDigit = true ∧ dy.length = 2 ∧
  h.all Char.isDigit = true ∧ 1 ≤ h.length ∧ h.length ≤ 2 ∧
  mi.all Char.isDigit = true ∧ 1 ≤ mi.length ∧ mi.length ≤ 2 ∧
  s.all Char.isDigit = true ∧ s.length = 2

/-! ## Lemmas: stable sorting (grouping) -/

lemma insertByKey_perm (s : ScreenshotFile) (l : List ScreenshotFile) :
    (insertByKey s l).Perm (s :: l) := by
  induction l with
  | nil => simp [insertByKey]
  | cons t ts ih =>
    by_cases h : sortKey s ≤ sortKey t
    · simp [insertByKey, h]
    · simp only [insertByKey, h, if_false]
      exact (ih.cons t).trans (List.Perm.swap s t ts)

lemma sortByKey_perm (l : List ScreenshotFile) : (sortByKey l).Perm l := by
  induction l with
  | nil => simp [sortByKey]
  | cons s ss ih =>
    exact (insertByKey_perm s (sortByKey ss)).trans (ih.cons s)

lemma insertByKey_pairwise (s : ScreenshotFile) {l : List ScreenshotFile}
    (h : l.Pairwise (fun a b => sortKey a ≤ sortKey b)) :
    (insertByKey s l).Pairwise (fun a b => sortKey a ≤ sortKey b) := by
  induction l with
  | nil => simp [insertByKey]
  | cons t ts ih =>
    rcases List.pairwise_cons.mp h with ⟨ht, hts⟩
    by_cases hle : sortKey s ≤ sortKey t
    · simp only [insertByKey, hle, if_true]
      refine List.pairwise_cons.mpr ⟨?_, h⟩
      intro b hb
      rw [List.mem_cons] at hb
      rcases hb with hb | hb
      · exact hb ▸ hle
      · exact le_trans hle (ht b hb)
    · simp only [insertByKey, hle, if_false]
      refine List.pairwise_cons.mpr ⟨?_, ih hts⟩
      intro b hb
      have hmem := (insertByKey_perm s ts).mem_iff.mp hb
      rw [List.mem_cons] at hmem
      rcases hmem with hb2 | hb2
      · exact hb2 ▸ le_of_not_le hle
      · exact ht b hb2

lemma sortByKey_pairwise (l : List ScreenshotFile) :
    (sortByKey l).Pairwise (fun a b => sortKey a ≤ sortKey b) := by
  induction l with
  | nil => simp [sortByKey]
  | cons s ss ih => exact insertByKey_pairwise s ih

lemma filter_insertByKey (s : ScreenshotFile) (l : List ScreenshotFile) (k : Nat) :
    (insertByKey s l).filter (fun t => sortKey t == k) =
      if sortKey s == k then s :: l.filter (fun t => sortKey t == k)
      else l.filter (fun t => sortKey t == k) := by
  induction l with
  | nil => by_cases h : sortKey s == k <;> simp [insertByKey, List.filter, h]
  | cons t ts ih =>
    by_cases hle : sortKey s ≤ sortKey t
    · by_cases h : sortKey s == k <;> simp [insertByKey, hle, List.filter, h]
    · have htk : (sortKey t == k) = true → (sortKey s == k) = false := by
        intro htk'
        have h1 : sortKey t = k := by simpa using htk'
        have h2 : sortKey t < sortKey s := lt_of_not_le fun hc => hle hc
        simp [← h1]
        omega
      by_cases htk' : sortKey t == k
      · have hsk := htk htk'
        simp [insertByKey, hle, List.filter, htk', ih, hsk]
      · by_cases hsk : sortKey s == k <;>
          simp [insertByKey, hle, List.filter, htk', ih, hsk]

lemma filter_sortByKey (l : List ScreenshotFile) (k : Nat) :
    (sortByKey l).filter (fun t => sortKey t == k) =
      l.filter (fun t => sortKey t == k) := by
  induction l with
  | nil => simp [sortByKey]
  | cons s ss ih =>
    by_cases h : sortKey s == k <;>
      simp [sortByKey, filter_insertByKey, h, List.filter, ih]

/-- C2: Grouping partitions records by character-identical `timestamp_part`
(the group at key `ts` is a permutation of the scan-order records whose key
equals `ts`), the group is ordered by sequence number with a missing number
treated as 0 (pairwise sorted by `number_suffix or 0`), ties preserve scan
order (records of each equal key appear exactly in input order), and on the
concrete records [A(seq=None), B(seq=2), C(seq=1)] sharing timestamp "T" the
output order is [A, C, B]. -/
theorem C2_grouping :
    (group_screenshots_by_timestamp
        [⟨"", "a", "T", none⟩, ⟨"", "b", "T", some 2⟩, ⟨"", "c", "T", some 1⟩] "T" =
      [⟨"", "a", "T", none⟩, ⟨"", "c", "T", some 1⟩, ⟨"", "b", "T", some 2⟩]) ∧
    (∀ (ss : List ScreenshotFile) (ts : String),
      (group_screenshots_by_timestamp ss ts).Perm
        (ss.filter (fun s => s.timestamp_part == ts))) ∧
    (∀ (ss : List ScreenshotFile) (ts : String),
      (group_screenshots_by_timestamp ss ts).Pairwise
        (fun a b => sortKey a ≤ sortKey b)) ∧
    (∀ (ss : List ScreenshotFile) (ts : String) (k : Nat),
      (group_screenshots_by_timestamp ss ts).filter (fun t => sortKey t == k) =
        (ss.filter (fun s => s.timestamp_part == ts)).filter
          (fun t => sortKey t == k)) := by
  refine ⟨by decide, ?_, ?_, ?_⟩
  · intro ss ts
    exact sortByKey_perm _
  · intro ss ts
    exact sortByKey_pairwise _
  · intro ss ts k
    exact filter_sortByKey _ k

/-! ## Sanitization lemmas and claims C7 / C10 -/

lemma pyCapitalize_length (cs : List Char) :
    (pyCapitalize cs).length = cs.length := by
  cases cs <;> simp [pyCapitalize]

/-- C7 counterexample: on input "aB", sanitization returns "Ab" — the
character after the first does not keep its input case ("AB"). -/
theorem C7_counterexample :
    sanitize_filename "aB" = "Ab" ∧ sanitize_filename "aB" ≠ "AB" := by
  decide

/-- C7 (amended): sanitization capitalizes Python-style: writing `core` for
the text after stripping invalid characters, collapsing whitespace and
trimming, when `core` fits the 50-character bound the output is exactly the
first character of `core` uppercased followed by every remaining character
lowercased (so characters after the first do not keep their input case). -/
theorem C7_amended (d : String) (hlen : (sanitize_core d).length ≤ 50) :
    (sanitize_core d = [] → sanitize_filename d = "") ∧
    (∀ c cs, sanitize_core d = c :: cs →
      sanitize_filename d = String.mk (c.toUpper :: cs.map Char.toLower)) := by
  have hcap : (pyCapitalize (sanitize_core d)).length ≤ 50 := by
    rw [pyCapitalize_length]; exact hlen
  constructor
  · intro h
    simp [sanitize_filename, h, pyCapitalize]
  · intro c cs h
    have hnot : ¬ 50 < cs.length + 1 := by
      have h2 := hcap
      rw [h] at h2
      simpa [pyCapitalize] using h2
    simp [sanitize_filename, h, pyCapitalize, hnot]

theorem C7_witness :
    (sanitize_core "aB").length ≤ 50 ∧
      sanitize_filename "aB" = String.mk ('a'.toUpper :: ['B'].map Char.toLower) :=
  ⟨by decide, (C7_amended "aB" (by decide)).2 'a' ['B'] (by decide)⟩

lemma mem_foldl_filter {x : Char} :
    ∀ (chars : List Char) (cs : List Char),
      x ∈ chars.foldl (fun d c => d.filter (fun y => y != c)) cs →
        x ∈ cs ∧ chars.contains x = false := by
  intro chars
  induction chars with
  | nil => intro cs h; simpa using h
  | cons a rest ih =>
    intro cs h
    have h2 := ih (cs.filter (fun y => y != a)) h
    rcases h2 with ⟨hmem, hcont⟩
    rw [List.mem_filter] at hmem
    rcases hmem with ⟨hmem, hne⟩
    refine ⟨hmem, ?_⟩
    simp only [List.contains_cons, Bool.or_eq_false_iff]
    constructor
    · simpa using hne
    · exact hcont

lemma remove_invalid_all_space {cs : List Char}
    (h : cs.all (fun c => invalid_chars.contains c || isSpaceChar c)) :
    (remove_invalid cs).all isSpaceChar = true := by
  rw [List.all_eq_true]
  intro x hx
  have h2 := mem_foldl_filter invalid_chars cs hx
  rcases h2 with ⟨hmem, hcont⟩
  have h3 := (List.all_eq_true.mp h) x hmem
  rw [Bool.or_eq_true] at h3
  rcases h3 with h3 | h3
  · rw [hcont] at h3; exact absurd h3 (by simp)
  · exact h3

lemma collapseWsAux_all_space {cs : List Char} (b : Bool)
    (h : cs.all isSpaceChar = true) :
    (collapseWsAux b cs).all isSpaceChar = true := by
  induction cs generalizing b with
  | nil => simp [collapseWsAux]
  | cons c rest ih =>
    rw [List.all_cons, Bool.and_eq_true] at h
    rcases h with ⟨hc, hrest⟩
    cases b
    · have h2 : collapseWsAux false (c :: rest) = ' ' :: collapseWsAux true rest := by
        simp [collapseWsAux, hc]
      rw [h2, List.all_cons, ih true hrest]
      decide
    · have h2 : collapseWsAux true (c :: rest) = collapseWsAux true rest := by
        simp [collapseWsAux, hc]
      rw [h2]
      exact ih true hrest

lemma dropWhile_all_eq_nil {p : Char → Bool} {cs : List Char}
    (h : cs.all p = true) : cs.dropWhile p = [] := by
  induction cs with
  | nil => simp
  | cons c rest ih =>
    rw [List.all_cons, Bool.and_eq_true] at h
    simp [List.dropWhile, h.1, ih h.2]

lemma stripBoth_all_eq_nil {p : Char → Bool} {cs : List Char}
    (h : cs.all p = true) : stripBoth p cs = [] := by
  rw [stripBoth, dropWhile_all_eq_nil h]
  simp

/-- C10: a description made only of stripped characters and whitespace
sanitizes to the empty string, and the rename layer then targets
`<prefix> <timestamp> - .png` (plain) or `<prefix> <timestamp> -  (<n>).png`
(numbered) with no minimum-length guard or fallback: the group-rename path
returns exactly that name when the directory is free of conflicts. -/
theorem C10_empty_sanitize (d : String)
    (h : d.data.all (fun c => invalid_chars.contains c || isSpaceChar c) = true) :
    sanitize_filename d = "" ∧
    (∀ rec : ScreenshotFile, rec.number_suffix = none →
      rename_new_name rec d =
        (if is_legacy_format rec.original_name then "Screen Shot" else "Screenshot") ++
          " " ++ rec.timestamp_part ++ " - .png") ∧
    (∀ (rec : ScreenshotFile) (n : Nat), rec.number_suffix = some n →
      rename_new_name rec d =
        (if is_legacy_format rec.original_name then "Screen Shot" else "Screenshot") ++
          " " ++ rec.timestamp_part ++ " -  (" ++ natToStr n ++ ").png") ∧
    (∀ rec : ScreenshotFile,
      rename_screenshot_group [] [rec] d = [rename_new_name rec d]) := by
  have hcore : sanitize_core d = [] :=
    stripBoth_all_eq_nil (collapseWsAux_all_space false (remove_invalid_all_space h))
  have hsan : sanitize_filename d = "" := by
    simp [sanitize_filename, hcore, pyCapitalize]
  refine ⟨hsan, ?_, ?_, ?_⟩
  · intro rec hnone
    simp only [rename_new_name, hsan, hnone, String.append_empty]
    apply String.ext
    simp only [String.data_append, List.append_assoc]
    rfl
  · intro rec n hsome
    simp only [rename_new_name, hsan, hsome, String.append_empty]
    apply String.ext
    simp only [String.data_append, List.append_assoc]
    rfl
  · intro rec
    rw [rename_screenshot_group]
    rw [rename_screenshot_group]
    simp [resolve_conflicts, List.contains]

theorem C10_witness :
    ("<>::  .. * ".data.all
        (fun c => invalid_chars.contains c || isSpaceChar c) = true) ∧
      sanitize_filename "<>::  .. * " = "" :=
  ⟨by decide, (C10_empty_sanitize "<>::  .. * " (by decide)).1⟩

/-! ## Claim C9: malformed-but-200 responses degrade to the placeholder -/

/-- C9: every HTTP-200 payload failing a structural check — not a mapping,
missing/empty/non-list `choices`, malformed first choice, missing or
non-mapping `message`, missing `content`, null content, or content text that
cleans to empty/whitespace — parses to the fixed placeholder description
`"Screenshot content"`, never to the failure value `none`. -/
theorem C9_malformed (j : Json) (h : malformed200 j = true) :
    parse_description j = some "Screenshot content" := by
  cases j with
  | null => rfl
  | str s => rfl
  | num n => rfl
  | arr xs => rfl
  | obj fields =>
    rw [malformed200] at h
    cases hc : jlookup "choices" fields with
    | none => simp [parse_description, hc]
    | some choices =>
      rw [hc] at h
      cases choices with
      | null => simp [parse_description, hc]
      | str s => simp [parse_description, hc]
      | num n => simp [parse_description, hc]
      | obj f2 => simp [parse_description, hc]
      | arr xs =>
        cases xs with
        | nil => simp [parse_description, hc]
        | cons choice rest =>
          cases choice with
          | null => simp [parse_description, hc]
          | str s => simp [parse_description, hc]
          | num n => simp [parse_description, hc]
          | arr ys => simp [parse_description, hc]
          | obj cfields =>
            dsimp only at h
            cases hm : jlookup "message" cfields with
            | none => simp [parse_description, hc, hm]
            | some message =>
              rw [hm] at h
              cases message with
              | null => simp [parse_description, hc, hm]
              | str s => simp [parse_description, hc, hm]
              | num n => simp [parse_description, hc, hm]
              | arr ys => simp [parse_description, hc, hm]
              | obj mfields =>
                dsimp only at h
                cases hco : jlookup "content" mfields with
                | none => simp [parse_description, hc, hm, hco]
                | some content =>
                  rw [hco] at h
                  cases content with
                  | null => simp [parse_description, hc, hm, hco]
                  | str s =>
                    dsimp only at h
                    simp only [parse_description, hc, hm, hco]
                    simp [parse_text, h]
                  | num n => simp at h
                  | arr ys => simp at h
                  | obj f3 => simp at h

theorem C9_witness :
    malformed200 (Json.obj [("id", Json.str "x")]) = true ∧
      parse_description (Json.obj [("id", Json.str "x")]) =
        some "Screenshot content" :=
  ⟨by decide, C9_malformed (Json.obj [("id", Json.str "x")]) (by decide)⟩

/-! ## Word-splitting lemmas and claim C4 -/

lemma splitWsAux_words (cs : List Char) :
    ∀ cur, cur.all (fun c => !isSpaceChar c) = true →
      ∀ w ∈ splitWsAux cur cs, w ≠ [] ∧ w.all (fun c => !isSpaceChar c) = true := by
  induction cs with
  | nil =>
    intro cur hcur w hw
    rw [splitWsAux] at hw
    by_cases hemp : cur.isEmpty
    · simp [hemp] at hw
    · simp [hemp] at hw
      subst hw
      refine ⟨?_, by simpa using hcur⟩
      simp only [List.isEmpty_iff] at hemp
      simpa using hemp
  | cons c rest ih =>
    intro cur hcur w hw
    rw [splitWsAux] at hw
    by_cases hsp : isSpaceChar c
    · by_cases hemp : cur.isEmpty
      · simp [hsp, hemp] at hw
        exact ih [] (by simp) w hw
      · simp [hsp, hemp] at hw
        rcases hw with hw | hw
        · subst hw
          refine ⟨?_, by simpa using hcur⟩
          simp only [List.isEmpty_iff] at hemp
          simpa using hemp
        · exact ih [] (by simp) w hw
    · simp [hsp] at hw
      refine ih (c :: cur) ?_ w hw
      rw [List.all_cons, hcur]
      simpa using hsp

lemma splitWsAux_consume (w : List Char) :
    ∀ cur tail, w.all (fun c => !isSpaceChar c) = true →
      splitWsAux cur (w ++ tail) = splitWsAux (w.reverse ++ cur) tail := by
  induction w with
  | nil => intro cur tail _; rfl
  | cons c w2 ih =>
    intro cur tail h
    rw [List.all_cons, Bool.and_eq_true] at h
    rcases h with ⟨hc, hw2⟩
    have hcf : isSpaceChar c = false := by simpa using hc
    rw [List.cons_append, splitWsAux, hcf]
    simp only [if_false, Bool.false_eq_true]
    rw [ih (c :: cur) tail hw2]
    congr 1
    simp

lemma splitWs_joinSp :
    ∀ ws : List (List Char),
      (∀ w ∈ ws, w ≠ [] ∧ w.all (fun c => !isSpaceChar c) = true) →
        splitWs (joinSp ws) = ws := by
  intro ws
  induction ws with
  | nil => intro _; rfl
  | cons w ws2 ih =>
    intro h
    have hw := h w (by simp)
    cases ws2 with
    | nil =>
      show splitWsAux [] (joinSp [w]) = [w]
      rw [joinSp, show w = w ++ [] from by simp,
        splitWsAux_consume w [] [] hw.2]
      rw [List.append_nil, List.append_nil, splitWsAux]
      have hemp : w.reverse.isEmpty = false := by
        simp [List.isEmpty_iff, hw.1]
      simp [hemp]
    | cons w2 rest =>
      show splitWsAux [] (joinSp (w :: w2 :: rest)) = w :: w2 :: rest
      rw [joinSp, splitWsAux_consume w [] (' ' :: joinSp (w2 :: rest)) hw.2]
      rw [List.append_nil, splitWsAux]
      have hemp : w.reverse.isEmpty = false := by
        simp [List.isEmpty_iff, hw.1]
      have ih2 := ih (fun x hx => h x (by simp [hx]))
      rw [splitWs] at ih2
      simp [hemp, ih2, isSpaceChar]
      simp

lemma capWords_bound (d1 : List Char) : (splitWs (capWords d1)).length ≤ 6 := by
  rw [capWords]
  by_cases hlen : 6 < (splitWs d1).length
  · rw [if_pos hlen]
    have hwords := splitWsAux_words d1 [] (by simp)
    have hall : ∀ w ∈ (splitWs d1).take 5, w ≠ [] ∧
        w.all (fun c => !isSpaceChar c) = true := by
      intro w hw
      exact hwords w (List.take_subset 5 _ hw)
    rw [splitWs_joinSp _ hall]
    calc ((splitWs d1).take 5).length ≤ 5 := by
          rw [List.length_take]; omega
      _ ≤ 6 := by omega
  · rw [if_neg hlen]
    omega

lemma parse_text_out (s r : String) (h : parse_text s = some r) :
    r = "Screenshot content" ∨
      ∃ d2, r = String.mk d2 ∧ (splitWs d2).length ≤ 6 ∧
        2 ≤ (stripBoth isSpaceChar d2).length := by
  rw [parse_text] at h
  simp only [] at h
  split at h
  · left; exact (Option.some.inj h).symm
  · split at h
    · exact absurd h (by simp)
    · split at h
      · left; exact (Option.some.inj h).symm
      · right
        refine ⟨capWords (afterPhrases (cleanContent s)),
          (Option.some.inj h).symm, capWords_bound _, ?_⟩
        rename_i hshort
        omega

lemma parse_description_out (j : Json) (s : String)
    (h : parse_description j = some s) :
    s = "Screenshot content" ∨ ∃ t, parse_text t = some s := by
  cases j with
  | null => left; exact (Option.some.inj h).symm
  | str s2 => left; exact (Option.some.inj h).symm
  | num n => left; exact (Option.some.inj h).symm
  | arr xs => left; exact (Option.some.inj h).symm
  | obj fields =>
    rw [parse_description] at h
    cases hc : jlookup "choices" fields with
    | none => rw [hc] at h; left; exact (Option.some.inj h).symm
    | some choices =>
      rw [hc] at h
      cases choices with
      | null => left; exact (Option.some.inj h).symm
      | str s2 => left; exact (Option.some.inj h).symm
      | num n => left; exact (Option.some.inj h).symm
      | obj f2 => left; exact (Option.some.inj h).symm
      | arr xs =>
        cases xs with
        | nil => left; exact (Option.some.inj h).symm
        | cons choice rest =>
          cases choice with
          | null => left; exact (Option.some.inj h).symm
          | str s2 => left; exact (Option.some.inj h).symm
          | num n => left; exact (Option.some.inj h).symm
          | arr ys => left; exact (Option.some.inj h).symm
          | obj cfields =>
            dsimp only at h
            cases hm : jlookup "message" cfields with
            | none => rw [hm] at h; left; exact (Option.some.inj h).symm
            | some message =>
              rw [hm] at h
              cases message with
              | null => left; exact (Option.some.inj h).symm
              | str s2 => left; exact (Option.some.inj h).symm
              | num n => left; exact (Option.some.inj h).symm
              | arr ys => left; exact (Option.some.inj h).symm
              | obj mfields =>
                dsimp only at h
                cases hco : jlookup "content" mfields with
                | none => rw [hco] at h; left; exact (Option.some.inj h).symm
                | some content =>
                  rw [hco] at h
                  cases content with
                  | null => left; exact (Option.some.inj h).symm
                  | str s2 => right; exact ⟨s2, h⟩
                  | num n => right; exact ⟨jsonToStr (Json.num n), h⟩
                  | arr ys => right; exact ⟨jsonToStr (Json.arr ys), h⟩
                  | obj f3 => right; exact ⟨jsonToStr (Json.obj f3), h⟩

set_option maxHeartbeats 2000000 in
/-- C4 counterexample: the exact six-word response
"alpha beta gamma delta epsilon zeta" is returned with all six words — more
than 5 — because the cap only fires for more than six words. -/
theorem C4_counterexample :
    parse_description (Json.obj [("choices", Json.arr [Json.obj [("message",
        Json.obj [("content",
          Json.str "alpha beta gamma delta epsilon zeta")])]])]) =
      some "alpha beta gamma delta epsilon zeta" ∧
    5 < (splitWs "alpha beta gamma delta epsilon zeta".data).length := by
  constructor
  · decide
  · decide

/-- C4 (amended): for every non-refused textual response the returned
description contains at most 6 whitespace-separated words (responses of more
than six words are truncated to five, six-word responses pass through
unchanged), and any returned description other than the fixed placeholder has
trimmed length at least 2 (shorter processed text falls back to the
placeholder "Screenshot content"). -/
theorem C4_amended :
    (∀ (j : Json) (s : String), parse_description j = some s →
      (splitWs s.data).length ≤ 6) ∧
    (∀ (j : Json) (s : String), parse_description j = some s →
      s = "Screenshot content" ∨ 2 ≤ (stripBoth isSpaceChar s.data).length) := by
  constructor
  · intro j s h
    rcases parse_description_out j s h with h2 | ⟨t, h2⟩
    · subst h2; decide
    · rcases parse_text_out t s h2 with h3 | ⟨d2, hr, hb, _⟩
      · subst h3; decide
      · subst hr; exact hb
  · intro j s h
    rcases parse_description_out j s h with h2 | ⟨t, h2⟩
    · left; exact h2
    · rcases parse_text_out t s h2 with h3 | ⟨d2, hr, _, hs⟩
      · left; exact h3
      · right; subst hr; exact hs

set_option maxHeartbeats 2000000 in
theorem C4_witness :
    parse_description (Json.obj [("choices", Json.arr [Json.obj [("message",
        Json.obj [("content", Json.str "one two three four five six seven")])]])]) =
        some "one two three four five" ∧
      (splitWs "one two three four five".data).length ≤ 6 :=
  ⟨by decide,
    C4_amended.1 (Json.obj [("choices", Json.arr [Json.obj [("message",
      Json.obj [("content", Json.str "one two three four five six seven")])]])])
      "one two three four five" (by decide)⟩

/-! ## Claim C6: safety-refusal detection -/

set_option maxHeartbeats 2000000 in
/-- C6: refusal detection is case-insensitive and substring-based over the
fixed phrase list: any response whose cleaned, lowercased text contains a
listed phrase parses to `none`, and the analysis call then returns the
distinct refusal failure outcome with no further retries (retry count 0);
concretely "I Can't Help With That" (mixed case) yields the null description
while "I can help you with this screenshot" yields a non-null one. -/
theorem C6_refusal :
    (∀ (s p : String), p ∈ refusal_patterns →
      containsSub p.data ((cleanContent s).map Char.toLower) = true →
      ((cleanContent s).isEmpty || (cleanContent s).all isSpaceChar) = false →
      parse_description (chatResponse s) = none) ∧
    (∀ (attempts : Nat → Attempt) (tstr : String) (mr : Nat) (j : Json),
      attempts 0 = Attempt.response j → jsonTruthy j = true →
      parse_description j = none →
      analyze_screenshot attempts tstr mr = refusalResult 0) ∧
    (parse_description (chatResponse "I Can\x27t Help With That") = none) ∧
    (parse_description (chatResponse "I can help you with this screenshot") =
      some "I can help you with") := by
  refine ⟨?_, ?_, by decide, by decide⟩
  · intro s p hp hsub hne
    have hred : parse_description (chatResponse s) = parse_text s := rfl
    rw [hred, parse_text]
    simp only []
    have hany : refusal_patterns.any
        (fun q => containsSub q.data ((cleanContent s).map Char.toLower)) = true :=
      List.any_eq_true.mpr ⟨p, hp, hsub⟩
    simp [hne, hany]
  · intro attempts tstr mr j hatt htruthy hparse
    show analyze_go attempts tstr (mr + 1) 0 [] = refusalResult 0
    simp [analyze_go, hatt, htruthy, hparse]

set_option maxHeartbeats 2000000 in
theorem C6_witness :
    ("i cannot analyze" ∈ refusal_patterns) ∧
      (containsSub "i cannot analyze".data
        ((cleanContent "I CANNOT ANALYZE this image").map Char.toLower) = true) ∧
      parse_description (chatResponse "I CANNOT ANALYZE this image") = none :=
  ⟨by decide, by decide,
    C6_refusal.1 "I CANNOT ANALYZE this image" "i cannot analyze"
      (by decide) (by decide) (by decide)⟩

/-! ## Claim C5: retry exhaustion -/

lemma analyze_go_all_err (attempts : Nat → Attempt) (tstr : String) :
    ∀ (fuel rc : Nat) (errs : List String),
      (∀ n, rc ≤ n → n < rc + fuel → isErrAttempt (attempts n) = true) →
      analyze_go attempts tstr fuel rc errs =
        exhaustedResult (rc + fuel)
          (errs ++ (countUp rc fuel).map
            (fun n => attemptErrMsg tstr n (attempts n))) := by
  intro fuel
  induction fuel with
  | zero => intro rc errs _; simp [analyze_go, countUp]
  | succ f ih =>
    intro rc errs h
    have h0 : isErrAttempt (attempts rc) = true := h rc le_rfl (by omega)
    cases hatt : attempts rc with
    | prepFail => rw [hatt] at h0; exact absurd h0 (by simp [isErrAttempt])
    | response j => rw [hatt] at h0; exact absurd h0 (by simp [isErrAttempt])
    | timeoutExn =>
      simp only [analyze_go, hatt]
      rw [ih (rc + 1) _ (fun n h1 h2 => h n (by omega) (by omega))]
      rw [show rc + 1 + f = rc + (f + 1) from by omega]
      congr 1
      simp [countUp, hatt]
    | reqExn m =>
      simp only [analyze_go, hatt]
      rw [ih (rc + 1) _ (fun n h1 h2 => h n (by omega) (by omega))]
      rw [show rc + 1 + f = rc + (f + 1) from by omega]
      congr 1
      simp [countUp, hatt]
    | otherExn m =>
      simp only [analyze_go, hatt]
      rw [ih (rc + 1) _ (fun n h1 h2 => h n (by omega) (by omega))]
      rw [show rc + 1 + f = rc + (f + 1) from by omega]
      congr 1
      simp [countUp, hatt]

/-- C5: when every attempt fails with a caught transport/unexpected error,
`analyze_screenshot` with `max_retries = mr` returns the exhausted outcome:
`retry_count = mr + 1` (the number of attempts actually consumed),
`error_message = "Failed after <mr+1> attempts"`, and a detailed-error field
concatenating every attempt's message in order; concretely, with
`max_retries = 1` and a transport failing twice, the outcome reports exactly
2 attempts and both error messages appear in order in the details. -/
theorem C5_retry_exhaustion :
    (∀ (mr : Nat) (attempts : Nat → Attempt) (tstr : String),
      (∀ n, n ≤ mr → isErrAttempt (attempts n) = true) →
      analyze_screenshot attempts tstr mr =
        exhaustedResult (mr + 1)
          ((countUp 0 (mr + 1)).map
            (fun n => attemptErrMsg tstr n (attempts n)))) ∧
    (analyze_screenshot
        (fun n => if n = 0 then Attempt.reqExn "connection refused"
          else Attempt.reqExn "server error") "30" 1 =
      { success := false,
        description := none,
        error_message := some "Failed after 2 attempts",
        error_details := some ("All attempts failed. Details: " ++
          "API request failed: connection refused (attempt 1); " ++
          "API request failed: server error (attempt 2)"),
        retry_count := 2 }) := by
  constructor
  · intro mr attempts tstr h
    show analyze_go attempts tstr (mr + 1) 0 [] = _
    rw [analyze_go_all_err attempts tstr (mr + 1) 0 []
      (fun n h1 h2 => h n (by omega))]
    simp
  · decide

theorem C5_witness :
    analyze_screenshot
        (fun n => if n = 0 then Attempt.reqExn "connection refused"
          else Attempt.reqExn "server error") "30" 1 =
      exhaustedResult 2 ((countUp 0 2).map
        (fun n => attemptErrMsg "30" n
          (if n = 0 then Attempt.reqExn "connection refused"
            else Attempt.reqExn "server error"))) :=
  C5_retry_exhaustion.1 1
    (fun n => if n = 0 then Attempt.reqExn "connection refused"
      else Attempt.reqExn "server error") "30"
    (fun n _ => by by_cases h2 : n = 0 <;> simp [h2, isErrAttempt])

/-! ## Claim C3: group rename naming -/

lemma resolve_free {existing : List String} {t : String} (h : t ∉ existing) :
    resolve_conflicts existing t = t := by
  have hc : existing.contains t = false := by
    simpa [List.contains, List.elem_eq_mem] using h
  rw [resolve_conflicts, hc]
  simp

lemma rename_group_no_conflict (desc : String) :
    ∀ (group : List ScreenshotFile) (existing : List String),
      (group.map (fun s => rename_new_name s desc)).Nodup →
      (∀ s ∈ group, rename_new_name s desc ∉ existing) →
      rename_screenshot_group existing group desc =
        group.map (fun s => rename_new_name s desc) := by
  intro group
  induction group with
  | nil => intro existing _ _; rfl
  | cons s rest ih =>
    intro existing hnodup hfree
    rw [rename_screenshot_group]
    rw [resolve_free (hfree s (by simp))]
    rw [List.map_cons]
    congr 1
    apply ih
    · exact (List.nodup_cons.mp hnodup).2
    · intro t ht hmem
      rw [List.mem_append] at hmem
      rcases hmem with hmem | hmem
      · exact hfree t (by simp [ht]) (List.mem_of_mem_erase hmem)
      · rw [List.mem_singleton] at hmem
        have hmm : rename_new_name t desc ∈
            rest.map (fun u => rename_new_name u desc) :=
          List.mem_map_of_mem _ ht
        rw [hmem] at hmm
        exact (List.nodup_cons.mp hnodup).1 hmm

set_option maxHeartbeats 2000000 in
/-- C3: under conflict-free conditions the group rename gives every record
the name `<prefix> <timestamp> - <sanitized description>[ (<n>)].png`, where
the prefix follows the record's own original name ("Screen Shot" for legacy,
"Screenshot" otherwise) and the " (<n>)" suffix appears exactly when the
record has a sequence number; the two end-to-end examples of §8 produce
exactly the names stated there. -/
theorem C3_rename :
    (∀ (existing : List String) (group : List ScreenshotFile) (desc : String),
      (group.map (fun s => rename_new_name s desc)).Nodup →
      (∀ s ∈ group, rename_new_name s desc ∉ existing) →
      rename_screenshot_group existing group desc =
        group.map (fun s => rename_new_name s desc)) ∧
    (∀ (s : ScreenshotFile) (desc : String) (n : Nat),
      (s.number_suffix = none → rename_new_name s desc =
        (if is_legacy_format s.original_name then "Screen Shot" else "Screenshot") ++
          " " ++ s.timestamp_part ++ " - " ++ sanitize_filename desc ++ ".png") ∧
      (s.number_suffix = some n → rename_new_name s desc =
        (if is_legacy_format s.original_name then "Screen Shot" else "Screenshot") ++
          " " ++ s.timestamp_part ++ " - " ++ sanitize_filename desc ++
          " (" ++ natToStr n ++ ").png")) ∧
    (rename_screenshot_group
        ["Screenshot 2025-06-09 at 9.15.24.png",
         "Screenshot 2025-06-09 at 9.15.24 (1).png"]
        [⟨"p1", "Screenshot 2025-06-09 at 9.15.24.png", "2025-06-09 at 9.15.24", none⟩,
         ⟨"p2", "Screenshot 2025-06-09 at 9.15.24 (1).png", "2025-06-09 at 9.15.24", some 1⟩]
        "Code editor python file" =
      ["Screenshot 2025-06-09 at 9.15.24 - Code editor python file.png",
       "Screenshot 2025-06-09 at 9.15.24 - Code editor python file (1).png"]) ∧
    (rename_screenshot_group ["Screen Shot 2022-05-21 at 21.21.27.png"]
        [⟨"p1", "Screen Shot 2022-05-21 at 21.21.27.png", "2022-05-21 at 21.21.27", none⟩]
        "Video call" =
      ["Screen Shot 2022-05-21 at 21.21.27 - Video call.png"]) := by
  refine ⟨?_, ?_, by decide, by decide⟩
  · intro existing group desc hnodup hfree
    exact rename_group_no_conflict desc group existing hnodup hfree
  · intro s desc n
    constructor
    · intro h
      simp only [rename_new_name, h]
    · intro h
      simp only [rename_new_name, h]

set_option maxHeartbeats 2000000 in
theorem C3_witness :
    rename_screenshot_group
        ["Screenshot 2025-06-09 at 9.15.24.png",
         "Screenshot 2025-06-09 at 9.15.24 (1).png"]
        [⟨"p1", "Screenshot 2025-06-09 at 9.15.24.png", "2025-06-09 at 9.15.24", none⟩,
         ⟨"p2", "Screenshot 2025-06-09 at 9.15.24 (1).png", "2025-06-09 at 9.15.24", some 1⟩]
        "Code editor python file" =
      [⟨"p1", "Screenshot 2025-06-09 at 9.15.24.png", "2025-06-09 at 9.15.24", none⟩,
       ⟨"p2", "Screenshot 2025-06-09 at 9.15.24 (1).png", "2025-06-09 at 9.15.24", some 1⟩].map
        (fun s => rename_new_name s "Code editor python file") :=
  C3_rename.1
    ["Screenshot 2025-06-09 at 9.15.24.png",
     "Screenshot 2025-06-09 at 9.15.24 (1).png"]
    [⟨"p1", "Screenshot 2025-06-09 at 9.15.24.png", "2025-06-09 at 9.15.24", none⟩,
     ⟨"p2", "Screenshot 2025-06-09 at 9.15.24 (1).png", "2025-06-09 at 9.15.24", some 1⟩]
    "Code editor python file" (by decide) (by decide)

/-! ## Claim C1: filename recognition grammar -/

lemma expectLit_append (lit rest : List Char) :
    expectLit lit (lit ++ rest) = some rest := by
  induction lit with
  | nil => rfl
  | cons c cs ih => simp [expectLit, ih]

lemma expectLit1 (c : Char) (z : List Char) :
    expectLit [c] (c :: z) = some z := by simp [expectLit]

lemma expectLit2 (c1 c2 : Char) (z : List Char) :
    expectLit [c1, c2] (c1 :: c2 :: z) = some z := by simp [expectLit]

lemma expectLit4 (c1 c2 c3 c4 : Char) (z : List Char) :
    expectLit [c1, c2, c3, c4] (c1 :: c2 :: c3 :: c4 :: z) = some z := by
  simp [expectLit]

lemma expectLit5 (c1 c2 c3 c4 c5 : Char) (z : List Char) :
    expectLit [c1, c2, c3, c4, c5] (c1 :: c2 :: c3 :: c4 :: c5 :: z) = some z := by
  simp [expectLit]

lemma exactDigits_append {n : Nat} {ds : List Char} (rest : List Char)
    (hall : ds.all Char.isDigit = true) (hlen : ds.length = n) :
    exactDigits n (ds ++ rest) = some (ds, rest) := by
  subst hlen
  induction ds with
  | nil => rfl
  | cons c cs ih =>
    rw [List.all_cons, Bool.and_eq_true] at hall
    simp [exactDigits, hall.1, ih hall.2]

lemma upTo2Digits_append {ds : List Char} (rest : List Char)
    (hall : ds.all Char.isDigit = true) (h1 : 1 ≤ ds.length) (h2 : ds.length ≤ 2) :
    upTo2Digits (ds ++ '.' :: rest) = some (ds, '.' :: rest) := by
  match ds, h1, h2 with
  | [d], _, _ =>
    rw [List.all_cons] at hall
    simp at hall
    simp [upTo2Digits, hall]
  | [d1, d2], _, _ =>
    simp at hall
    simp [upTo2Digits, hall.1, hall.2]

lemma tsCore_append (y mo dy h mi s : List Char) (rest : List Char)
    (hy : y.all Char.isDigit = true) (hyl : y.length = 4)
    (hmo : mo.all Char.isDigit = true) (hmol : mo.length = 2)
    (hdy : dy.all Char.isDigit = true) (hdyl : dy.length = 2)
    (hh : h.all Char.isDigit = true) (hh1 : 1 ≤ h.length) (hh2 : h.length ≤ 2)
    (hmi : mi.all Char.isDigit = true) (hmi1 : 1 ≤ mi.length) (hmi2 : mi.length ≤ 2)
    (hs : s.all Char.isDigit = true) (hsl : s.length = 2) :
    tsCore (tsChars y mo dy h mi s ++ rest) =
      some (tsChars y mo dy h mi s, rest) := by
  rw [tsCore, tsChars]
  simp only [List.append_assoc, List.cons_append]
  rw [exactDigits_append _ hy hyl]
  simp only [Option.bind_eq_bind, Option.some_bind]
  rw [expectLit1]
  simp only [Option.some_bind]
  rw [exactDigits_append _ hmo hmol]
  simp only [Option.some_bind]
  rw [expectLit1]
  simp only [Option.some_bind]
  rw [exactDigits_append _ hdy hdyl]
  simp only [Option.some_bind]
  rw [expectLit4]
  simp only [Option.some_bind]
  rw [upTo2Digits_append _ hh hh1 hh2]
  simp only [Option.some_bind]
  rw [expectLit1]
  simp only [Option.some_bind]
  rw [upTo2Digits_append _ hmi hmi1 hmi2]
  simp only [Option.some_bind]
  rw [expectLit1]
  simp only [Option.some_bind]
  rw [exactDigits_append _ hs hsl]
  simp only [Option.some_bind]
  simp [tsChars]


lemma takeWhile_append_stop {p : Char → Bool} {xs : List Char} {y : Char}
    (ys : List Char) (hxs : xs.all p = true) (hy : p y = false) :
    (xs ++ y :: ys).takeWhile p = xs := by
  induction xs with
  | nil => simp [List.takeWhile, hy]
  | cons x xs2 ih =>
    rw [List.all_cons, Bool.and_eq_true] at hxs
    simp [List.takeWhile, hxs.1, ih hxs.2]

lemma dropWhile_append_stop {p : Char → Bool} {xs : List Char} {y : Char}
    (ys : List Char) (hxs : xs.all p = true) (hy : p y = false) :
    (xs ++ y :: ys).dropWhile p = y :: ys := by
  induction xs with
  | nil => simp [List.dropWhile, hy]
  | cons x xs2 ih =>
    rw [List.all_cons, Bool.and_eq_true] at hxs
    simp [List.dropWhile, hxs.1, ih hxs.2]

lemma matchPlain_pos (pfxLit y mo dy h mi s : List Char)
    (hv : validTs y mo dy h mi s) :
    matchPlain pfxLit
        (pfxLit ++ (tsChars y mo dy h mi s ++ ('.' :: 'p' :: 'n' :: 'g' :: []))) =
      some (String.mk (tsChars y mo dy h mi s)) := by
  obtain ⟨hy, hyl, hmo, hmol, hdy, hdyl, hh, hh1, hh2, hmi, hmi1, hmi2, hs, hsl⟩ := hv
  rw [matchPlain, expectLit_append]
  simp only [Option.bind_eq_bind, Option.some_bind]
  rw [tsCore_append y mo dy h mi s _ hy hyl hmo hmol hdy hdyl hh hh1 hh2
    hmi hmi1 hmi2 hs hsl]
  simp only [Option.some_bind]
  rw [expectLit4]
  simp only [Option.some_bind]
  simp [atEnd]

lemma matchNumbered_plain_none (pfxLit y mo dy h mi s : List Char)
    (hv : validTs y mo dy h mi s) :
    matchNumbered pfxLit
        (pfxLit ++ (tsChars y mo dy h mi s ++ ('.' :: 'p' :: 'n' :: 'g' :: []))) =
      none := by
  obtain ⟨hy, hyl, hmo, hmol, hdy, hdyl, hh, hh1, hh2, hmi, hmi1, hmi2, hs, hsl⟩ := hv
  rw [matchNumbered, expectLit_append]
  simp only [Option.bind_eq_bind, Option.some_bind]
  rw [tsCore_append y mo dy h mi s _ hy hyl hmo hmol hdy hdyl hh hh1 hh2
    hmi hmi1 hmi2 hs hsl]
  simp only [Option.some_bind]
  simp [expectLit]

lemma matchNumbered_pos (pfxLit y mo dy h mi s nds : List Char)
    (hv : validTs y mo dy h mi s) (hnds : nds.all Char.isDigit = true)
    (hne : nds ≠ []) :
    matchNumbered pfxLit
        (pfxLit ++ (tsChars y mo dy h mi s ++
          (' ' :: '(' :: (nds ++ (')' :: '.' :: 'p' :: 'n' :: 'g' :: []))))) =
      some (String.mk (tsChars y mo dy h mi s), digitsVal nds) := by
  obtain ⟨hy, hyl, hmo, hmol, hdy, hdyl, hh, hh1, hh2, hmi, hmi1, hmi2, hs, hsl⟩ := hv
  rw [matchNumbered, expectLit_append]
  simp only [Option.bind_eq_bind, Option.some_bind]
  rw [tsCore_append y mo dy h mi s _ hy hyl hmo hmol hdy hdyl hh hh1 hh2
    hmi hmi1 hmi2 hs hsl]
  simp only [Option.some_bind]
  rw [expectLit2]
  simp only [Option.some_bind]
  rw [takeWhile_append_stop _ hnds (by decide),
    dropWhile_append_stop _ hnds (by decide)]
  have hemp : nds.isEmpty = false := by simp [List.isEmpty_iff, hne]
  rw [hemp]
  simp only [Bool.false_eq_true, if_false]
  rw [expectLit5]
  simp only [Option.some_bind]
  simp [atEnd]

lemma matchPlain_numbered_none (pfxLit y mo dy h mi s nds : List Char)
    (hv : validTs y mo dy h mi s) :
    matchPlain pfxLit
        (pfxLit ++ (tsChars y mo dy h mi s ++
          (' ' :: '(' :: (nds ++ (')' :: '.' :: 'p' :: 'n' :: 'g' :: []))))) =
      none := by
  obtain ⟨hy, hyl, hmo, hmol, hdy, hdyl, hh, hh1, hh2, hmi, hmi1, hmi2, hs, hsl⟩ := hv
  rw [matchPlain, expectLit_append]
  simp only [Option.bind_eq_bind, Option.some_bind]
  rw [tsCore_append y mo dy h mi s _ hy hyl hmo hmol hdy hdyl hh hh1 hh2
    hmi hmi1 hmi2 hs hsl]
  simp only [Option.some_bind]
  simp [expectLit]

lemma matchPlain_none_pfx {pfxLit name : List Char}
    (h : expectLit pfxLit name = none) : matchPlain pfxLit name = none := by
  rw [matchPlain, h]
  rfl

lemma matchNumbered_none_pfx {pfxLit name : List Char}
    (h : expectLit pfxLit name = none) : matchNumbered pfxLit name = none := by
  rw [matchNumbered, h]
  rfl

lemma matchPlain_none_ts {pfxLit X : List Char} (h : tsCore X = none) :
    matchPlain pfxLit (pfxLit ++ X) = none := by
  rw [matchPlain, expectLit_append]
  simp only [Option.bind_eq_bind, Option.some_bind]
  rw [h]
  rfl

lemma matchNumbered_none_ts {pfxLit X : List Char} (h : tsCore X = none) :
    matchNumbered pfxLit (pfxLit ++ X) = none := by
  rw [matchNumbered, expectLit_append]
  simp only [Option.bind_eq_bind, Option.some_bind]
  rw [h]
  rfl

lemma expectLit_legacy_on_modern (X : List Char) :
    expectLit legacyLit (modernLit ++ X) = none := rfl

lemma expectLit_modern_on_legacy (X : List Char) :
    expectLit modernLit (legacyLit ++ X) = none := rfl


lemma tsCore_second_short (y mo dy h mi s : List Char) (c : Char) (Z : List Char)
    (hy : y.all Char.isDigit = true) (hyl : y.length = 4)
    (hmo : mo.all Char.isDigit = true) (hmol : mo.length = 2)
    (hdy : dy.all Char.isDigit = true) (hdyl : dy.length = 2)
    (hh : h.all Char.isDigit = true) (hh1 : 1 ≤ h.length) (hh2 : h.length ≤ 2)
    (hmi : mi.all Char.isDigit = true) (hmi1 : 1 ≤ mi.length) (hmi2 : mi.length ≤ 2)
    (hs : s.all Char.isDigit = true) (hsl : s.length = 1)
    (hc : c.isDigit = false) :
    tsCore (tsChars y mo dy h mi s ++ (c :: Z)) = none := by
  match s, hsl with
  | [s0], _ =>
    rw [List.all_cons] at hs
    simp only [List.all_nil, Bool.and_true] at hs
    rw [tsCore, tsChars]
    simp only [List.append_assoc, List.cons_append, List.nil_append]
    rw [exactDigits_append _ hy hyl]
    simp only [Option.bind_eq_bind, Option.some_bind]
    rw [expectLit1]
    simp only [Option.some_bind]
    rw [exactDigits_append _ hmo hmol]
    simp only [Option.some_bind]
    rw [expectLit1]
    simp only [Option.some_bind]
    rw [exactDigits_append _ hdy hdyl]
    simp only [Option.some_bind]
    rw [expectLit4]
    simp only [Option.some_bind]
    rw [upTo2Digits_append _ hh hh1 hh2]
    simp only [Option.some_bind]
    rw [expectLit1]
    simp only [Option.some_bind]
    rw [upTo2Digits_append _ hmi hmi1 hmi2]
    simp only [Option.some_bind]
    rw [expectLit1]
    simp only [Option.some_bind]
    simp [exactDigits, hs, hc]

lemma tsCore_hour_long (y mo dy hr mi s : List Char) (R : List Char)
    (hy : y.all Char.isDigit = true) (hyl : y.length = 4)
    (hmo : mo.all Char.isDigit = true) (hmol : mo.length = 2)
    (hdy : dy.all Char.isDigit = true) (hdyl : dy.length = 2)
    (hhr : hr.all Char.isDigit = true) (hhrl : hr.length = 3) :
    tsCore (tsChars y mo dy hr mi s ++ R) = none := by
  match hr, hhrl with
  | [h1, h2, h3], _ =>
    simp only [List.all_cons, List.all_nil, Bool.and_true, Bool.and_eq_true] at hhr
    obtain ⟨hd1, hd2, hd3⟩ := hhr
    rw [tsCore, tsChars]
    simp only [List.append_assoc, List.cons_append, List.nil_append]
    rw [exactDigits_append _ hy hyl]
    simp only [Option.bind_eq_bind, Option.some_bind]
    rw [expectLit1]
    simp only [Option.some_bind]
    rw [exactDigits_append _ hmo hmol]
    simp only [Option.some_bind]
    rw [expectLit1]
    simp only [Option.some_bind]
    rw [exactDigits_append _ hdy hdyl]
    simp only [Option.some_bind]
    rw [expectLit4]
    simp only [Option.some_bind]
    have hu : upTo2Digits (h1 :: h2 :: h3 :: '.' :: (mi ++ '.' :: (s ++ R))) =
        some ([h1, h2], h3 :: '.' :: (mi ++ '.' :: (s ++ R))) := by
      simp [upTo2Digits, hd1, hd2]
    rw [hu]
    simp only [Option.some_bind]
    have hne : (h3 = '.') = False := by
      simp only [eq_iff_iff, iff_false]
      intro he
      rw [he] at hd3
      exact absurd hd3 (by decide)
    simp [expectLit, hne]


set_option maxHeartbeats 1000000 in
/-- C1 (amended): a filename is recognized exactly when it matches one of the
four forms (Modern/Legacy, plain/numbered) in which the hour AND minute
components have one or two digits and the second component has exactly two
digits: for all well-formed components (including single-digit hours and
single-digit minutes) recognition of all four constructed forms succeeds and
extracts the timestamp key and sequence number, while a three-digit hour or a
single-digit second makes recognition fail. -/
theorem C1_amended (p : String) (y mo dy h mi s nds hr3 s1 : List Char)
    (hv : validTs y mo dy h mi s)
    (hnds : nds.all Char.isDigit = true) (hne : nds ≠ [])
    (hhr3 : hr3.all Char.isDigit = true) (hhr3l : hr3.length = 3)
    (hs1 : s1.all Char.isDigit = true) (hs1l : s1.length = 1) :
    (parse_screenshot_filename p (String.mk (modernLit ++ (tsChars y mo dy h mi s ++ ('.' :: 'p' :: 'n' :: 'g' :: [])))) =
      some ⟨p, String.mk (modernLit ++ (tsChars y mo dy h mi s ++ ('.' :: 'p' :: 'n' :: 'g' :: []))),
        String.mk (tsChars y mo dy h mi s), none⟩) ∧
    (parse_screenshot_filename p (String.mk (legacyLit ++ (tsChars y mo dy h mi s ++ ('.' :: 'p' :: 'n' :: 'g' :: [])))) =
      some ⟨p, String.mk (legacyLit ++ (tsChars y mo dy h mi s ++ ('.' :: 'p' :: 'n' :: 'g' :: []))),
        String.mk (tsChars y mo dy h mi s), none⟩) ∧
    (parse_screenshot_filename p (String.mk (modernLit ++ (tsChars y mo dy h mi s ++ (' ' :: '(' :: (nds ++ (')' :: '.' :: 'p' :: 'n' :: 'g' :: [])))))) =
      some ⟨p, String.mk (modernLit ++ (tsChars y mo dy h mi s ++ (' ' :: '(' :: (nds ++ (')' :: '.' :: 'p' :: 'n' :: 'g' :: []))))),
        String.mk (tsChars y mo dy h mi s), some (digitsVal nds)⟩) ∧
    (parse_screenshot_filename p (String.mk (legacyLit ++ (tsChars y mo dy h mi s ++ (' ' :: '(' :: (nds ++ (')' :: '.' :: 'p' :: 'n' :: 'g' :: [])))))) =
      some ⟨p, String.mk (legacyLit ++ (tsChars y mo dy h mi s ++ (' ' :: '(' :: (nds ++ (')' :: '.' :: 'p' :: 'n' :: 'g' :: []))))),
        String.mk (tsChars y mo dy h mi s), some (digitsVal nds)⟩) ∧
    (parse_screenshot_filename p (String.mk (modernLit ++ (tsChars y mo dy hr3 mi s ++ ('.' :: 'p' :: 'n' :: 'g' :: [])))) = none) ∧
    (parse_screenshot_filename p (String.mk (modernLit ++ (tsChars y mo dy h mi s1 ++ ('.' :: 'p' :: 'n' :: 'g' :: [])))) = none) := by
  obtain ⟨hy, hyl, hmo, hmol, hdy, hdyl, hh, hh1, hh2, hmi, hmi1, hmi2, hs, hsl⟩ := hv
  have hv2 : validTs y mo dy h mi s :=
    ⟨hy, hyl, hmo, hmol, hdy, hdyl, hh, hh1, hh2, hmi, hmi1, hmi2, hs, hsl⟩
  refine ⟨?_, ?_, ?_, ?_, ?_, ?_⟩
  · rw [parse_screenshot_filename,
      show (String.mk (modernLit ++ (tsChars y mo dy h mi s ++ ('.' :: 'p' :: 'n' :: 'g' :: [])))).data =
        modernLit ++ (tsChars y mo dy h mi s ++ ('.' :: 'p' :: 'n' :: 'g' :: [])) from rfl]
    rw [matchNumbered_plain_none modernLit y mo dy h mi s hv2]
    rw [matchNumbered_none_pfx (expectLit_legacy_on_modern _)]
    rw [matchPlain_pos modernLit y mo dy h mi s hv2]
  · rw [parse_screenshot_filename,
      show (String.mk (legacyLit ++ (tsChars y mo dy h mi s ++ ('.' :: 'p' :: 'n' :: 'g' :: [])))).data =
        legacyLit ++ (tsChars y mo dy h mi s ++ ('.' :: 'p' :: 'n' :: 'g' :: [])) from rfl]
    rw [matchNumbered_none_pfx (expectLit_modern_on_legacy _)]
    rw [matchNumbered_plain_none legacyLit y mo dy h mi s hv2]
    rw [matchPlain_none_pfx (expectLit_modern_on_legacy _)]
    rw [matchPlain_pos legacyLit y mo dy h mi s hv2]
  · rw [parse_screenshot_filename,
      show (String.mk (modernLit ++ (tsChars y mo dy h mi s ++ (' ' :: '(' :: (nds ++ (')' :: '.' :: 'p' :: 'n' :: 'g' :: [])))))).data =
        modernLit ++ (tsChars y mo dy h mi s ++ (' ' :: '(' :: (nds ++ (')' :: '.' :: 'p' :: 'n' :: 'g' :: [])))) from rfl]
    rw [matchNumbered_pos modernLit y mo dy h mi s nds hv2 hnds hne]
  · rw [parse_screenshot_filename,
      show (String.mk (legacyLit ++ (tsChars y mo dy h mi s ++ (' ' :: '(' :: (nds ++ (')' :: '.' :: 'p' :: 'n' :: 'g' :: [])))))).data =
        legacyLit ++ (tsChars y mo dy h mi s ++ (' ' :: '(' :: (nds ++ (')' :: '.' :: 'p' :: 'n' :: 'g' :: [])))) from rfl]
    rw [matchNumbered_none_pfx (expectLit_modern_on_legacy _)]
    rw [matchNumbered_pos legacyLit y mo dy h mi s nds hv2 hnds hne]
  · rw [parse_screenshot_filename,
      show (String.mk (modernLit ++ (tsChars y mo dy hr3 mi s ++ ('.' :: 'p' :: 'n' :: 'g' :: [])))).data =
        modernLit ++ (tsChars y mo dy hr3 mi s ++ ('.' :: 'p' :: 'n' :: 'g' :: [])) from rfl]
    rw [matchNumbered_none_ts (tsCore_hour_long y mo dy hr3 mi s
      ('.' :: 'p' :: 'n' :: 'g' :: []) hy hyl hmo hmol hdy hdyl hhr3 hhr3l)]
    rw [matchNumbered_none_pfx (expectLit_legacy_on_modern _)]
    rw [matchPlain_none_ts (tsCore_hour_long y mo dy hr3 mi s
      ('.' :: 'p' :: 'n' :: 'g' :: []) hy hyl hmo hmol hdy hdyl hhr3 hhr3l)]
    rw [matchPlain_none_pfx (expectLit_legacy_on_modern _)]
  · rw [parse_screenshot_filename,
      show (String.mk (modernLit ++ (tsChars y mo dy h mi s1 ++ ('.' :: 'p' :: 'n' :: 'g' :: [])))).data =
        modernLit ++ (tsChars y mo dy h mi s1 ++ ('.' :: 'p' :: 'n' :: 'g' :: [])) from rfl]
    rw [matchNumbered_none_ts (tsCore_second_short y mo dy h mi s1 '.'
      ('p' :: 'n' :: 'g' :: []) hy hyl hmo hmol hdy hdyl hh hh1 hh2
      hmi hmi1 hmi2 hs1 hs1l (by decide))]
    rw [matchNumbered_none_pfx (expectLit_legacy_on_modern _)]
    rw [matchPlain_none_ts (tsCore_second_short y mo dy h mi s1 '.'
      ('p' :: 'n' :: 'g' :: []) hy hyl hmo hmol hdy hdyl hh hh1 hh2
      hmi hmi1 hmi2 hs1 hs1l (by decide))]
    rw [matchPlain_none_pfx (expectLit_legacy_on_modern _)]

/-- C1 counterexample: the filename "Screenshot 2025-06-09 at 9.5.24.png",
whose minute component has only ONE digit, is recognized and parsed into a
record — refuting the claim that recognition fails for single-digit-minute
filenames (the minute class in the source regexes is `\d{1,2}`, not `\d{2}`). -/
theorem C1_counterexample :
    parse_screenshot_filename "p" "Screenshot 2025-06-09 at 9.5.24.png" =
      some ⟨"p", "Screenshot 2025-06-09 at 9.5.24.png",
        "2025-06-09 at 9.5.24", none⟩ := by
  decide

theorem C1_witness :
    parse_screenshot_filename "p"
        (String.mk (modernLit ++
          (tsChars ['2', '0', '2', '5'] ['0', '6'] ['0', '9'] ['9'] ['5']
            ['2', '4'] ++ ('.' :: 'p' :: 'n' :: 'g' :: [])))) =
      some ⟨"p",
        String.mk (modernLit ++
          (tsChars ['2', '0', '2', '5'] ['0', '6'] ['0', '9'] ['9'] ['5']
            ['2', '4'] ++ ('.' :: 'p' :: 'n' :: 'g' :: []))),
        String.mk (tsChars ['2', '0', '2', '5'] ['0', '6'] ['0', '9'] ['9'] ['5']
          ['2', '4']), none⟩ :=
  (C1_amended "p" ['2', '0', '2', '5'] ['0', '6'] ['0', '9'] ['9'] ['5']
    ['2', '4'] ['1'] ['1', '2', '3'] ['7'] (by unfold validTs; decide)
    (by decide) (by decide) (by decide) (by decide) (by decide) (by decide)).1

/-! ## Claim C8: conflict resolution -/

lemma digitChar_val {n : Nat} (h : n < 10) : (Nat.digitChar n).toNat - 48 = n := by
  interval_cases n <;> decide

lemma natDigitsGo_val :
    ∀ (fuel n : Nat) (acc : List Char), n < 10 ^ fuel →
      ∃ P, 1 ≤ P ∧ ∀ a : Nat,
        List.foldl (fun a c => a * 10 + (c.toNat - 48)) a (natDigitsGo fuel n acc) =
          List.foldl (fun a c => a * 10 + (c.toNat - 48)) (a * P + n) acc := by
  intro fuel
  induction fuel with
  | zero =>
    intro n acc h
    have hn : n = 0 := by simpa using h
    subst hn
    exact ⟨1, le_rfl, fun a => by simp [natDigitsGo]⟩
  | succ f ih =>
    intro n acc h
    by_cases hlt : n < 10
    · refine ⟨10, by omega, fun a => ?_⟩
      rw [natDigitsGo, if_pos hlt]
      rw [List.foldl_cons, digitChar_val hlt]
    · have hdiv : n / 10 < 10 ^ f := by
        rw [Nat.div_lt_iff_lt_mul (by omega)]
        calc n < 10 ^ (f + 1) := h
          _ = 10 ^ f * 10 := by ring
      obtain ⟨P, hP1, hP⟩ := ih (n / 10) (Nat.digitChar (n % 10) :: acc) hdiv
      refine ⟨P * 10, by omega, fun a => ?_⟩
      rw [natDigitsGo, if_neg hlt, hP a]
      rw [List.foldl_cons, digitChar_val (Nat.mod_lt n (by omega))]
      congr 1
      have := Nat.div_add_mod n 10
      ring_nf
      omega

lemma digitsVal_natToStr (n : Nat) : digitsVal (natToStr n).data = n := by
  have hpow : n < 10 ^ (n + 1) := by
    have hpos : 0 < 10 ^ n := pow_pos (by omega) n
    calc n < 2 ^ n := Nat.lt_two_pow n
      _ ≤ 10 ^ n := Nat.pow_le_pow_left (by omega) n
      _ < 10 ^ (n + 1) := by rw [pow_succ]; omega
  obtain ⟨P, _, hP⟩ := natDigitsGo_val (n + 1) n [] hpow
  show List.foldl _ 0 (natDigitsGo (n + 1) n []) = n
  rw [hP 0]
  simp

lemma natToStr_inj {a b : Nat} (h : natToStr a = natToStr b) : a = b := by
  have := congrArg (fun s => digitsVal s.data) h
  simpa [digitsVal_natToStr] using this

lemma conflictNm_inj (stem ext : String) {k1 k2 : Nat}
    (h : conflictNm stem ext k1 = conflictNm stem ext k2) : k1 = k2 := by
  apply natToStr_inj
  apply String.ext
  rw [conflictNm, conflictNm] at h
  have hd := congrArg String.data h
  simp only [String.data_append] at hd
  have h1 := List.append_cancel_right hd
  have h2 := List.append_cancel_right h1
  exact List.append_cancel_left h2

lemma mem_countUp {m : Nat} :
    ∀ (len start : Nat), m ∈ countUp start len ↔ start ≤ m ∧ m < start + len := by
  intro len
  induction len with
  | zero => intro start; simp [countUp]
  | succ l ih =>
    intro start
    rw [countUp, List.mem_cons, ih (start + 1)]
    omega

lemma countUp_nodup : ∀ (len start : Nat), (countUp start len).Nodup := by
  intro len
  induction len with
  | zero => intro start; simp [countUp]
  | succ l ih =>
    intro start
    rw [countUp, List.nodup_cons]
    refine ⟨?_, ih (start + 1)⟩
    rw [mem_countUp]
    omega

lemma countUp_length : ∀ (len start : Nat), (countUp start len).length = len := by
  intro len
  induction len with
  | zero => intro start; rfl
  | succ l ih => intro start; rw [countUp, List.length_cons, ih]

lemma probe_exists_free (existing : List String) (stem ext : String) :
    ∃ j, 1 ≤ j ∧ j < existing.length + 2 ∧ conflictNm stem ext j ∉ existing := by
  by_contra hcon
  push_neg at hcon
  have hsub : ((countUp 1 (existing.length + 1)).map (conflictNm stem ext)) ⊆
      existing := by
    intro x hx
    rw [List.mem_map] at hx
    obtain ⟨j, hj, hx⟩ := hx
    rw [mem_countUp] at hj
    exact hx ▸ hcon j hj.1 (by omega)
  have hnodup : ((countUp 1 (existing.length + 1)).map (conflictNm stem ext)).Nodup :=
    (countUp_nodup _ _).map (fun _ _ h => conflictNm_inj stem ext h)
  have hcard1 : ((countUp 1 (existing.length + 1)).map
      (conflictNm stem ext)).toFinset.card = existing.length + 1 := by
    rw [List.toFinset_card_of_nodup hnodup, List.length_map, countUp_length]
  have hsubF : ((countUp 1 (existing.length + 1)).map
      (conflictNm stem ext)).toFinset ⊆ existing.toFinset := by
    intro x hx
    rw [List.mem_toFinset] at hx ⊢
    exact hsub hx
  have hle := Finset.card_le_card hsubF
  have hle2 := existing.toFinset_card_le
  omega


lemma probe_least (existing : List String) (stem ext : String) :
    ∀ (fuel k : Nat),
      (∃ j, k ≤ j ∧ j < k + fuel ∧ conflictNm stem ext j ∉ existing) →
      ∃ m, k ≤ m ∧ probe existing stem ext fuel k = conflictNm stem ext m ∧
        conflictNm stem ext m ∉ existing ∧
        ∀ j, k ≤ j → j < m → conflictNm stem ext j ∈ existing := by
  intro fuel
  induction fuel with
  | zero =>
    intro k h
    obtain ⟨j, hj1, hj2, _⟩ := h
    omega
  | succ f ih =>
    intro k h
    by_cases hmem : existing.contains (conflictNm stem ext k)
    · have hkmem : conflictNm stem ext k ∈ existing := by
        simpa [List.contains, List.elem_eq_mem] using hmem
      have hwin : ∃ j, k + 1 ≤ j ∧ j < (k + 1) + f ∧
          conflictNm stem ext j ∉ existing := by
        obtain ⟨j, hj1, hj2, hj3⟩ := h
        have : j ≠ k := fun he => hj3 (he ▸ hkmem)
        exact ⟨j, by omega, by omega, hj3⟩
      obtain ⟨m, hm1, hm2, hm3, hm4⟩ := ih (k + 1) hwin
      refine ⟨m, by omega, ?_, hm3, ?_⟩
      · rw [probe]
        simp only [hmem, if_true]
        exact hm2
      · intro j hj1 hj2
        by_cases hjk : j = k
        · exact hjk ▸ hkmem
        · exact hm4 j (by omega) hj2
    · have hf : existing.contains (conflictNm stem ext k) = false := by
        rw [← Bool.not_eq_true]; exact hmem
      refine ⟨k, le_rfl, ?_, ?_, fun j hj1 hj2 => by omega⟩
      · rw [probe, hf]
        simp
      · intro hc
        exact hmem (by simpa [List.contains, List.elem_eq_mem] using hc)

/-- C8: conflict resolution never returns a name that exists at call time:
the target itself when it is free, otherwise the target's stem with suffix
" (k)" before the extension where k is the smallest unused integer ≥ 1. -/
theorem C8_conflicts (existing : List String) (target : String) :
    (resolve_conflicts existing target ∉ existing) ∧
    (target ∉ existing → resolve_conflicts existing target = target) ∧
    (target ∈ existing → ∃ k, 1 ≤ k ∧
      resolve_conflicts existing target =
        conflictNm (path_split target).1 (path_split target).2 k ∧
      conflictNm (path_split target).1 (path_split target).2 k ∉ existing ∧
      ∀ j, 1 ≤ j → j < k →
        conflictNm (path_split target).1 (path_split target).2 j ∈ existing) := by
  by_cases hmem : target ∈ existing
  · have hc : existing.contains target = true := by
      simpa [List.contains, List.elem_eq_mem] using hmem
    have hfree := probe_exists_free existing (path_split target).1 (path_split target).2
    have hwin : ∃ j, 1 ≤ j ∧ j < 1 + (existing.length + 1) ∧
        conflictNm (path_split target).1 (path_split target).2 j ∉ existing := by
      obtain ⟨j, h1, h2, h3⟩ := hfree
      exact ⟨j, h1, by omega, h3⟩
    obtain ⟨m, hm1, hm2, hm3, hm4⟩ :=
      probe_least existing (path_split target).1 (path_split target).2
        (existing.length + 1) 1 hwin
    have hres : resolve_conflicts existing target =
        conflictNm (path_split target).1 (path_split target).2 m := by
      rw [resolve_conflicts, hc]
      simp only [if_true]
      exact hm2
    refine ⟨?_, ?_, ?_⟩
    · rw [hres]; exact hm3
    · intro hcon; exact absurd hmem hcon
    · intro _; exact ⟨m, hm1, hres, hm3, hm4⟩
  · have hres := resolve_free hmem
    refine ⟨?_, fun _ => hres, fun hcon => absurd hcon hmem⟩
    rw [hres]
    exact hmem

theorem C8_witness :
    ("b.png" ∉ ["a.png"]) ∧ resolve_conflicts ["a.png"] "b.png" = "b.png" :=
  ⟨by decide, (C8_conflicts ["a.png"] "b.png").2.1 (by decide)⟩

end Screenshots
